import Mathlib

/-!
Verification development for the `mcstatusgo` Minecraft status/query client.

Go byte slices are modelled as `List Nat` (each element a byte value), Go
strings as their underlying byte lists, Go `int`/`int64` arithmetic on
non-negative values as `Nat` (with masks written exactly as in the source),
and Go's `(value, error)` returns as `Except GoError`.  Pure parsing
functions are translated one-to-one from the source; network reads are
modelled by passing the received bytes (or the list of successive read
chunks) as an argument.
-/

/-- Errors of the Go package (`errors.New` values, `ErrMissingInformation`,
`strconv` parse errors, and runtime conditions reached by the code). -/
inductive GoError where
  /-- Go error `ErrShortStatusResponse`. -/
  | shortStatusResponse
  /-- Go error `ErrInvalidSizeInfo`. -/
  | invalidSizeInfo
  /-- Go error `ErrLargeVarInt`. -/
  | largeVarInt
  /-- Go error `ErrMissingInformation` with its protocol and missing value. -/
  | missingInformation (protocol : String) (missingValue : String)
  /-- Go error `ErrShortQueryResponse`. -/
  | shortQueryResponse
  /-- Go error `ErrShortChallengeToken`. -/
  | shortChallengeToken
  /-- Go error `ErrAbsentChallengeTokenNullTerminator`. -/
  | absentChallengeTokenNullTerminator
  /-- Go error `ErrAbsentPlayerToken`. -/
  | absentPlayerToken
  /-- Go error `ErrStatusLegacyMissingInformation`. -/
  | statusLegacyMissingInformation
  /-- Syntax error of `strconv.ParseInt` (a `NumError` wrapping `ErrSyntax`). -/
  | numSyntaxError
  /-- Range error of `strconv.ParseInt` (a `NumError` wrapping `ErrRange`). -/
  | numRangeError
  /-- Go runtime panic from indexing byte 0 of an empty string -/
  | indexOutOfRange
  /-- a network read returning an error (no further data available) -/
  | readError
  deriving DecidableEq, Repr

deriving instance DecidableEq for Except

/-- The byte list of an ASCII string literal, used to write
concrete Go string/byte values. -/
def strBytes (s : String) : List Nat :=
  s.data.map Char.toNat

/-! ### VarInt codec (`status.go`) -/

/-- Source function `writeVarInt` (status.go:177): converts an int into its varint byte
equivalent.  The loop emits the low 7 bits with the continuation bit 0x80
until `number & 0xFFFFFF80 == 0`, right-shifting by 7 each iteration. -/
def writeVarInt (number : Nat) : List Nat :=
  if number &&& 0xFFFFFF80 = 0 then
    [number &&& 0x7F]
  else
    ((number &&& 0x7F) ||| 0x80) :: writeVarInt (number >>> 7)
termination_by number
decreasing_by
  have hne : number ≠ 0 := by
    intro h0
    subst h0
    simp at *
  rw [Nat.shiftRight_eq_div_pow]
  exact Nat.div_lt_self (Nat.pos_of_ne_zero hne) (by norm_num)

/-- The loop of `readVarInt` (status.go:252): accumulates 7-bit groups into
`number` at `bitOffSet`, failing with `ErrLargeVarInt` when the offset
reaches 35, and stopping at the first byte without the continuation bit. -/
def readVarIntLoop : List Nat → Nat → Nat → Except GoError Nat
  | [], number, _ => .ok number
  | currentByte :: rest, number, bitOffSet =>
    if bitOffSet = 35 then .error .largeVarInt
    else
      let number' := number ||| ((currentByte &&& 0x7F) <<< bitOffSet)
      if currentByte &&& 0x80 = 0 then .ok number'
      else readVarIntLoop rest number' (bitOffSet + 7)

/-- Source function `readVarInt` (status.go:252): converts a varint byte list into its int
equivalent. -/
def readVarInt (varInt : List Nat) : Except GoError Nat :=
  readVarIntLoop varInt 0 0

/-! ### Modern status response framing (`status.go`) -/

/-- The varint-collecting loop inside `formatStatusResponse` (status.go:315):
collects bytes up to and including the first byte without the continuation
bit; if no byte terminates, all bytes are collected. -/
def takeVarIntBytes : List Nat → List Nat
  | [] => []
  | currentByte :: rest =>
    if currentByte &&& 0x80 = 0 then [currentByte]
    else currentByte :: takeVarIntBytes rest

/-- Source function `formatStatusResponse` (status.go:305): rejects responses under 4 bytes,
strips the one-byte state ID, extracts and decodes the JSON-length varint,
and checks the declared length against the remaining bytes. -/
def formatStatusResponse (response : List Nat) : Except GoError (List Nat) :=
  if response.length < 4 then .error .shortStatusResponse
  else
    let response1 := response.drop 1
    let jsonLen := takeVarIntBytes response1
    let response2 := response1.drop jsonLen.length
    match readVarInt jsonLen with
    | .error e => .error e
    | .ok jsonLength =>
      if jsonLength ≠ response2.length then .error .invalidSizeInfo
      else .ok response2

/-! ### Modern status validation (`status.go`)

`validateStatusResponse` unmarshals the JSON payload into a struct of
`interface{}` fields and checks each for `nil`.  The JSON document is
modelled by the `Json` type below; `encoding/json`'s behaviour on the
`verifyResponse` struct is modelled by `fieldVal`/`subFieldVal`: a field is
`nil` exactly when its key is absent or its value is JSON `null` (protocol
keys are lowercase, matching the struct fields modulo Go's case-insensitive
matching; a later key overrides an earlier duplicate as in `encoding/json`).
-/

/-- A JSON document. -/
inductive Json where
  | null
  | bool (b : Bool)
  | num (n : Int)
  | str (s : String)
  | arr (elems : List Json)
  | obj (fields : List (String × Json))

/-- Object-key lookup with `encoding/json` semantics: the last occurrence of
a duplicated key wins. -/
def jsonLookup : List (String × Json) → String → Option Json
  | [], _ => none
  | (k, v) :: rest, key =>
    match jsonLookup rest key with
    | some r => some r
    | none => if k = key then some v else none

/-- The value an `interface{}` struct field receives from `json.Unmarshal`:
`none` (Go `nil`) when the key is absent or its value is JSON `null`. -/
def fieldVal (fields : List (String × Json)) (key : String) : Option Json :=
  match jsonLookup fields key with
  | some .null => none
  | some v => some v
  | none => none

/-- The value of a field nested in a sub-object (e.g. `players.max`): `none`
when the parent is absent, `null`, or not an object, or the child is absent
or `null`.  (For a present non-object parent `json.Unmarshal` errors
instead; theorems about structurally valid payloads exclude that case.) -/
def subFieldVal (fields : List (String × Json)) (parent child : String) : Option Json :=
  match fieldVal fields parent with
  | some (.obj inner) => fieldVal inner child
  | _ => none

/-- Source function `validateStatusResponse` (status.go:341) on an unmarshalled payload
object: checks the five mandatory values in source order and reports the
first missing one.  The players sample, favicon, and modinfo fields are not
included in the validation. -/
def validateStatusResponse (payload : List (String × Json)) : Option GoError :=
  if (fieldVal payload "description").isNone then
    some (.missingInformation "status" "description")
  else if (subFieldVal payload "players" "max").isNone then
    some (.missingInformation "status" "max players")
  else if (subFieldVal payload "players" "online").isNone then
    some (.missingInformation "status" "online players")
  else if (subFieldVal payload "version" "name").isNone then
    some (.missingInformation "status" "version name")
  else if (subFieldVal payload "version" "protocol").isNone then
    some (.missingInformation "status" "version protocol")
  else none

/-! ### Byte-sequence splitting (`bytes.Split` / `strings.Split` models) -/

/-- Does `sep` occur at the head of `l`? -/
def matchHead : List Nat → List Nat → Bool
  | [], _ => true
  | _ :: _, [] => false
  | s :: ss, x :: xs => s == x && matchHead ss xs

/-- Does `sep` occur anywhere in `l`? -/
def containsSeq (sep : List Nat) : List Nat → Bool
  | [] => matchHead sep []
  | x :: xs => matchHead sep (x :: xs) || containsSeq sep xs

/-- Model of `bytes.Split`/`strings.Split` for a non-empty separator: splits around
each leftmost non-overlapping occurrence of `sep`. -/
def splitOnSeq (sep : List Nat) : List Nat → List (List Nat)
  | [] => [[]]
  | x :: xs =>
    if matchHead sep (x :: xs) && !sep.isEmpty then
      [] :: splitOnSeq sep ((x :: xs).drop sep.length)
    else
      match splitOnSeq sep xs with
      | [] => [[x]]
      | h :: t => (x :: h) :: t
termination_by l => l.length
decreasing_by
  · simp only [List.length_drop, List.length_cons]
    rename_i hcond
    have : sep.length ≠ 0 := by
      intro h0
      have hnil : sep = [] := List.length_eq_zero.mp h0
      subst hnil
      simp [List.isEmpty] at hcond
    omega
  · simp

/-- Model of `strings.SplitN(s, sep, 2)` for a non-empty separator: splits around the
first occurrence of `sep` only. -/
def splitNSeq2 (sep : List Nat) : List Nat → List (List Nat)
  | [] => [[]]
  | x :: xs =>
    if matchHead sep (x :: xs) && !sep.isEmpty then
      [[], (x :: xs).drop sep.length]
    else
      match splitNSeq2 sep xs with
      | [] => [[x]]
      | h :: t => (x :: h) :: t

/-! ### Full query response parsing (`query.go`) -/

/-- Source value `playerToken` (query.go:30): the token used to split the full query
response into two parts for parsing. -/
def playerToken : List Nat := [0, 1, 112, 108, 97, 121, 101, 114, 95, 0, 0]

/-- The fields of `FullQueryResponse` (query.go:46) produced by response
parsing.  `IP`, `Port` are copied from the call arguments, not parsed, and
are omitted.  Go strings are byte lists; the one-key maps of `ModList` are
(name, version) pairs. -/
structure FullQueryResponse where
  description : List Nat := []
  gameType : List Nat := []
  gameID : List Nat := []
  mapName : List Nat := []
  versionName : List Nat := []
  playersMax : Int := 0
  playersOnline : Int := 0
  playerList : List (List Nat) := []
  modType : List Nat := []
  modList : List (List Nat × List Nat) := []
  deriving DecidableEq, Repr, Inhabited

/-- Insertion into a Go `map[string]string` (model: association list keyed
by byte strings, insert overwrites). -/
def mapInsert : List (List Nat × List Nat) → List Nat → List Nat → List (List Nat × List Nat)
  | [], k, v => [(k, v)]
  | (k', v') :: rest, k, v =>
    if k' = k then (k, v) :: rest else (k', v') :: mapInsert rest k v

/-- Lookup in a Go `map[string]string` model. -/
def mapLookup : List (List Nat × List Nat) → List Nat → Option (List Nat)
  | [], _ => none
  | (k', v') :: rest, k => if k' = k then some v' else mapLookup rest k

/-- The alternating key/value state machine of `parseKeyValueSection`
(query.go:332): a null byte terminates the current byte string, which is
kept as the pending key (`isKey`) or mapped to the pending key (`!isKey`);
an unterminated trailing value is dropped. -/
def parseKeyValueLoop :
    List Nat → List (List Nat × List Nat) → List Nat → List Nat → Bool →
    List (List Nat × List Nat)
  | [], responseMap, _, _, _ => responseMap
  | currentByte :: rest, responseMap, currentValue, keyValue, isKey =>
    if currentByte = 0 then
      if isKey then
        parseKeyValueLoop rest responseMap [] currentValue false
      else
        parseKeyValueLoop rest (mapInsert responseMap keyValue currentValue) [] keyValue true
    else
      parseKeyValueLoop rest responseMap (currentValue ++ [currentByte]) keyValue isKey

/-- Source function `parseKeyValueSection` (query.go:319): rejects sections under 16 bytes,
strips the 16-byte header, and parses alternating null-terminated keys and
values into a map.  (The source then serialises the map through
`json.Marshal`; that byte detour round-trips the map and is elided.) -/
def parseKeyValueSection (keyValueSection : List Nat) :
    Except GoError (List (List Nat × List Nat)) :=
  if keyValueSection.length < 16 then .error .shortQueryResponse
  else .ok (parseKeyValueLoop (keyValueSection.drop 16) [] [] [] true)

/-- Source function `validateQueryResponse` (query.go:360): checks the eight required keys
in struct-field order and reports the first missing one (field names
lowercased, matching the map keys sent by the protocol). -/
def validateQueryResponse (responseMap : List (List Nat × List Nat)) : Option GoError :=
  if (mapLookup responseMap (strBytes "hostname")).isNone then
    some (.missingInformation "query" "hostname")
  else if (mapLookup responseMap (strBytes "gametype")).isNone then
    some (.missingInformation "query" "gametype")
  else if (mapLookup responseMap (strBytes "game_id")).isNone then
    some (.missingInformation "query" "game_id")
  else if (mapLookup responseMap (strBytes "version")).isNone then
    some (.missingInformation "query" "version")
  else if (mapLookup responseMap (strBytes "plugins")).isNone then
    some (.missingInformation "query" "plugins")
  else if (mapLookup responseMap (strBytes "map")).isNone then
    some (.missingInformation "query" "map")
  else if (mapLookup responseMap (strBytes "numplayers")).isNone then
    some (.missingInformation "query" "numplayers")
  else if (mapLookup responseMap (strBytes "maxplayers")).isNone then
    some (.missingInformation "query" "maxplayers")
  else none

/-- The number denoted by a list of ASCII digit bytes. -/
def digitsVal (digits : List Nat) : Nat :=
  digits.foldl (fun acc d => acc * 10 + (d - 48)) 0

/-- Behavioural model of decoding a quoted decimal integer with
`encoding/json`'s `,string` option into a Go int: an optional `-` sign
followed by at least one digit; anything else is an unmarshal error.  An
absent key leaves the zero value. -/
def jsonStringInt : Option (List Nat) → Except GoError Int
  | none => .ok 0
  | some s =>
    let (neg, digits) := match s with
      | 45 :: rest => (true, rest)
      | _ => (false, s)
    if digits ≠ [] ∧ digits.all (fun d => decide (48 ≤ d ∧ d ≤ 57)) then
      .ok (if neg then -(digitsVal digits : Int) else (digitsVal digits : Int))
    else .error .numSyntaxError

/-- Source function `packagePluginSection` (query.go:409): an empty plugin
section changes nothing; otherwise the section is split on the first `": "`
into the server mod name and the plugin list; the list (when present and
non-empty) is split on `"; "` into entries, and each entry is split on
`" "` with `pluginSplit[0]` the name and `pluginSplit[1]` (when it exists)
the version, an absent version staying the empty string. -/
def packagePluginSection (pluginSection : List Nat) (fullQuery : FullQueryResponse) :
    FullQueryResponse :=
  if pluginSection.length = 0 then fullQuery
  else
    let pluginSectionSplit := splitNSeq2 (strBytes ": ") pluginSection
    let serverModName := pluginSectionSplit.headD []
    if pluginSectionSplit.length = 1 then
      { fullQuery with modType := serverModName }
    else
      let pluginString := pluginSectionSplit.getD 1 []
      let pluginList :=
        if pluginString ≠ [] then
          (splitOnSeq (strBytes "; ") pluginString).map (fun plugin =>
            let pluginSplit := splitOnSeq (strBytes " ") plugin
            if pluginSplit.length = 1 then (pluginSplit.headD [], ([] : List Nat))
            else (pluginSplit.headD [], pluginSplit.getD 1 []))
        else []
      { fullQuery with modType := serverModName, modList := pluginList }

/-- Source function `packageKeyValueSection` (query.go:385): unmarshals the
key-value map into the typed struct (ints via the `,string` option, absent
keys keeping zero values, which `validateQueryResponse` has already
excluded) and copies the fields into the response, handing `plugins` to
`packagePluginSection`. -/
def packageKeyValueSection (responseMap : List (List Nat × List Nat))
    (fullQuery : FullQueryResponse) : Except GoError FullQueryResponse :=
  match jsonStringInt (mapLookup responseMap (strBytes "maxplayers")) with
  | .error e => .error e
  | .ok maxplayers =>
    match jsonStringInt (mapLookup responseMap (strBytes "numplayers")) with
    | .error e => .error e
    | .ok numplayers =>
      let fq := { fullQuery with
        playersMax := maxplayers
        playersOnline := numplayers
        description := (mapLookup responseMap (strBytes "hostname")).getD []
        gameType := (mapLookup responseMap (strBytes "gametype")).getD []
        gameID := (mapLookup responseMap (strBytes "game_id")).getD []
        mapName := (mapLookup responseMap (strBytes "map")).getD []
        versionName := (mapLookup responseMap (strBytes "version")).getD [] }
      .ok (packagePluginSection ((mapLookup responseMap (strBytes "plugins")).getD []) fq)

/-- The player-name loop of `packagePlayerSection` (query.go:463): names are
null-terminated; an empty name (two adjacent nulls) ends the list; an
unterminated trailing name is dropped. -/
def packagePlayerLoop : List Nat → List (List Nat) → List Nat → List (List Nat)
  | [], playerList, _ => playerList
  | currentByte :: rest, playerList, playerString =>
    if currentByte = 0 then
      if playerString = [] then playerList
      else packagePlayerLoop rest (playerList ++ [playerString]) []
    else packagePlayerLoop rest playerList (playerString ++ [currentByte])

/-- Source function `packagePlayerSection` (query.go:455): sections under 4 bytes are
ignored; otherwise the parsed player list is stored. -/
def packagePlayerSection (playerSection : List Nat) (fullQuery : FullQueryResponse) :
    FullQueryResponse :=
  if playerSection.length < 4 then fullQuery
  else { fullQuery with playerList := packagePlayerLoop playerSection [] [] }

/-- Source function `packageFullQueryResponse` (query.go:284): splits the response on
`playerToken`; any split other than exactly two parts is
`ErrAbsentPlayerToken`; otherwise the key-value section is parsed,
validated, and packaged, then the player section is packaged.  (`serverIP`
and `port` are copied into the result unparsed and are omitted here.) -/
def packageFullQueryResponse (response : List Nat) : Except GoError FullQueryResponse :=
  let fullQuery : FullQueryResponse := {}
  let splitResponse := splitOnSeq playerToken response
  if splitResponse.length ≠ 2 then .error .absentPlayerToken
  else
    let keyValueSection := splitResponse.headD []
    let playerSection := splitResponse.getD 1 []
    match parseKeyValueSection keyValueSection with
    | .error e => .error e
    | .ok responseMap =>
      match validateQueryResponse responseMap with
      | some e => .error e
      | none =>
        match packageKeyValueSection responseMap fullQuery with
        | .error e => .error e
        | .ok fq => .ok (packagePlayerSection playerSection fq)

/-! ### Challenge token (`query.go`) -/

/-- Source function `cleanChallengeToken` (query.go:223): requires at least 7 bytes, strips
the 5 type/session-ID bytes, requires a trailing null terminator, and
removes every null byte. -/
def cleanChallengeToken (potentialChallengeToken : List Nat) : Except GoError (List Nat) :=
  if potentialChallengeToken.length < 7 then .error .shortChallengeToken
  else
    let stripped := potentialChallengeToken.drop 5
    if stripped.getLast? ≠ some 0 then .error .absentChallengeTokenNullTerminator
    else .ok (stripped.filter (fun currentByte => currentByte ≠ 0))

/-- The digit phase of `strconv.ParseInt(_, 10, 32)`: at least one digit,
else a syntax error; a value outside `[-2^31, 2^31 - 1]` is a range
error. -/
def goParseIntDigits (neg : Bool) (digits : List Nat) : Except GoError Int :=
  if digits ≠ [] ∧ digits.all (fun d => decide (48 ≤ d ∧ d ≤ 57)) then
    let v : Int := if neg then -(digitsVal digits : Int) else (digitsVal digits : Int)
    if v < -(2 ^ 31) ∨ 2 ^ 31 - 1 < v then .error .numRangeError else .ok v
  else .error .numSyntaxError

/-- Behavioural model of `strconv.ParseInt(s, 10, 32)`: an optional
`+`/`-` sign followed by the digit phase. -/
def goParseInt32 : List Nat → Except GoError Int
  | 43 :: rest => goParseIntDigits false rest
  | 45 :: rest => goParseIntDigits true rest
  | s => goParseIntDigits false s

/-- Conversion `uint32(v)` of a Go signed integer: two's-complement truncation. -/
def uint32OfInt (v : Int) : Nat :=
  (v % (2 ^ 32 : Int)).toNat

/-- Model of `binary.BigEndian.PutUint32`: the 4 big-endian bytes of a `uint32`. -/
def putUint32BE (n : Nat) : List Nat :=
  [n / 2 ^ 24 % 256, n / 2 ^ 16 % 256, n / 2 ^ 8 % 256, n % 256]

/-- Asserts that `s` is the ASCII decimal representation of the integer `n`: digits for
a non-negative value, or a `-` followed by the digits of the absolute
value. -/
def decimalRep (s : List Nat) (n : Int) : Prop :=
  (s ≠ [] ∧ (∀ d ∈ s, 48 ≤ d ∧ d ≤ 57) ∧ 0 ≤ n ∧ (digitsVal s : Int) = n) ∨
  (∃ t, s = 45 :: t ∧ t ≠ [] ∧ (∀ d ∈ t, 48 ≤ d ∧ d ≤ 57) ∧ (digitsVal t : Int) = -n)

/-- The body of `parseChallengeToken` (query.go:194) on the cleaned token:
a decimal integer — a leading `-` is stripped, the rest is parsed with
`strconv.ParseInt(_, 10, 32)` and negated — re-encoded as 4 big-endian
bytes of its `uint32` conversion.  (Go indexes byte 0 of the cleaned
string unconditionally; on an empty string that is a runtime panic.) -/
def parseChallengeTokenCleaned : List Nat → Except GoError (List Nat)
  | [] => .error .indexOutOfRange
  | c :: restChars =>
    if c = 45 then
      match goParseInt32 restChars with
      | .error e => .error e
      | .ok v => .ok (putUint32BE (uint32OfInt (v * (-1))))
    else
      match goParseInt32 (c :: restChars) with
      | .error e => .error e
      | .ok v => .ok (putUint32BE (uint32OfInt v))

/-- Source function `parseChallengeToken` (query.go:194): cleaning followed
by the sign handling and re-encoding above. -/
def parseChallengeToken (potentialChallengeToken : List Nat) : Except GoError (List Nat) :=
  match cleanChallengeToken potentialChallengeToken with
  | .error e => .error e
  | .ok cleaned => parseChallengeTokenCleaned cleaned

/-! ### Legacy status (`status_old.go`) -/

/-- The double-null splitting loop of `parseLegacyStatusResponse`
(status_old.go:151): a value is appended when a null byte immediately
follows another null byte; any other byte is accumulated.  Returns the
collected values and the pending (unterminated) value. -/
def parseLegacyStatusLoop :
    List Nat → List (List Nat) → List Nat → Bool → List (List Nat) × List Nat
  | [], responseList, currentValue, _ => (responseList, currentValue)
  | currentByte :: rest, responseList, currentValue, appendValue =>
    if currentByte = 0 then
      if appendValue then
        parseLegacyStatusLoop rest (responseList ++ [currentValue]) [] false
      else
        parseLegacyStatusLoop rest responseList currentValue true
    else
      parseLegacyStatusLoop rest responseList (currentValue ++ [currentByte]) false

/-- The `appendValue` flag of the legacy splitting loop after it processes
`u` starting from flag `av`: a null byte flips the flag (setting it, or
clearing it when it completes a double-null pair), any other byte clears
it.  The flag is clear exactly when the next null byte read would be a
lone one. -/
def legacyAppendFlag (av : Bool) : List Nat → Bool
  | [] => av
  | currentByte :: rest =>
    legacyAppendFlag (if currentByte = 0 then !av else false) rest

/-- Source function `parseLegacyStatusResponse` (status_old.go:138): rejects responses under
10 bytes (with `ErrShortQueryResponse`, as in the source), strips the 9
header bytes, splits on doubled nulls, and appends the final unterminated
value. -/
def parseLegacyStatusResponse (response : List Nat) : Except GoError (List (List Nat)) :=
  if response.length < 10 then .error .shortQueryResponse
  else
    let parsed := parseLegacyStatusLoop (response.drop 9) [] [] false
    .ok (parsed.1 ++ [parsed.2])

/-- Source function `stringToInt` (from the repository's query source): wraps
`strconv.ParseInt(numString, 10, 32)`. -/
def stringToInt (numString : List Nat) : Except GoError Int :=
  goParseInt32 numString

/-- The fields of `StatusLegacyResponse` (status_old.go:31) set by
`packageLegacyStatusValues` (`IP`, `Port`, `Latency` are copied from the
call, not parsed). -/
structure StatusLegacyValues where
  versionName : List Nat := []
  description : List Nat := []
  versionProtocol : Int := 0
  playersOnline : Int := 0
  playersMax : Int := 0
  deriving DecidableEq, Repr, Inhabited

/-- Source function `packageLegacyStatusValues` (status_old.go:174): fewer than 5 values is
`ErrStatusLegacyMissingInformation`; otherwise values are packaged in fixed
order — version name (1), description (2), then the integer conversions of
protocol version (0), players online (3) and players max (4). -/
def packageLegacyStatusValues (responseList : List (List Nat)) :
    Except GoError StatusLegacyValues :=
  if responseList.length < 5 then .error .statusLegacyMissingInformation
  else
    let versionName := responseList.getD 1 []
    let description := responseList.getD 2 []
    match stringToInt (responseList.getD 0 []) with
    | .error e => .error e
    | .ok protocolVersion =>
      match stringToInt (responseList.getD 3 []) with
      | .error e => .error e
      | .ok playersOnline =>
        match stringToInt (responseList.getD 4 []) with
        | .error e => .error e
        | .ok playersMax =>
          .ok { versionName := versionName, description := description,
                versionProtocol := protocolVersion,
                playersOnline := playersOnline, playersMax := playersMax }

/-! ### Beta status (`status_old.go`) -/

/-- Source function `readBetaStatusResponseSize` (status_old.go:297) on the 3 received
bytes: the kick-packet byte is removed from the front, the next 2 bytes are
a big-endian 16-bit integer, and the result is multiplied by 2. -/
def readBetaStatusResponseSize (sizeResponse : List Nat) : Nat :=
  let response := sizeResponse.drop 1
  (256 * response.getD 0 0 + response.getD 1 0) * 2

/-- The accumulation loop of `readBetaStatusResponse` (status_old.go:282):
keeps appending received chunks until at least `responseSize` bytes have
been received; a read with no data left is a read error. -/
def readBetaStatusResponseLoop (responseSize : Nat) :
    List (List Nat) → List Nat → Except GoError (List Nat)
  | [], response =>
    if response.length < responseSize then .error .readError else .ok response
  | recvBuffer :: rest, response =>
    if response.length < responseSize then
      readBetaStatusResponseLoop responseSize rest (response ++ recvBuffer)
    else .ok response

/-- Source function `readBetaStatusResponse` (status_old.go:272), with the network reads
modelled by the list of successive chunks `con.Read` returns: computes the
expected size from the 3-byte size header and accumulates chunks until that
many bytes are received. -/
def readBetaStatusResponse (sizeResponse : List Nat) (chunks : List (List Nat)) :
    Except GoError (List Nat) :=
  readBetaStatusResponseLoop (readBetaStatusResponseSize sizeResponse) chunks []

/-- The §8 sample legacy response body: five fields each terminated by two
null bytes. -/
def legacySampleBody : List Nat :=
  strBytes "1" ++ [0, 0] ++ strBytes "1.8" ++ [0, 0] ++
    strBytes "A Minecraft Server" ++ [0, 0] ++ strBytes "5" ++ [0, 0] ++
    strBytes "20" ++ [0, 0]

/-! ### Definitions taken from the specification's wording (for comparison
with the source behaviour) -/

/-- Modelled from the spec: a plugin entry is split "at its first space
into plugin name and version" — this is the version so described,
everything after the first space (empty when there is no space). -/
def specEntryVersion (entry : List Nat) : List Nat :=
  (splitNSeq2 (strBytes " ") entry).getD 1 []

/-- Joins byte strings with a separator (used to state well-formed plugin
lists: `joinWith sep [a, b, c] = a ++ sep ++ b ++ sep ++ c`). -/
def joinWith (sep : List Nat) : List (List Nat) → List Nat
  | [] => []
  | [x] => x
  | x :: y :: rest => x ++ sep ++ joinWith sep (y :: rest)

/-- Renders one plugin entry: `"name version"`, or just `"name"` when the
version is empty. -/
def renderPluginEntry (entry : List Nat × List Nat) : List Nat :=
  if entry.2 = [] then entry.1 else entry.1 ++ strBytes " " ++ entry.2

/-- Renders a plugins string `"<modName>: <name1> <ver1>; <name2> <ver2>"`
from a mod name and (name, version) entries. -/
def renderPluginSection (modName : List Nat) (entries : List (List Nat × List Nat)) :
    List Nat :=
  modName ++ strBytes ": " ++ joinWith (strBytes "; ") (entries.map renderPluginEntry)

/-! ### Theorems -/

/-- For numbers below `2^32`, the encint mask test agrees with `< 128`. -/
theorem varMask_eq_zero_iff {n : Nat} (h : n < 2 ^ 32) :
    n &&& 0xFFFFFF80 = 0 ↔ n < 128 := by
  have hmaskrep : (0xFFFFFF80 : Nat) = (2 ^ 25 - 1) <<< 7 := by decide
  constructor
  · intro h0
    have hbit : ∀ i, 7 ≤ i → n.testBit i = false := by
      intro i hi
      by_cases h32 : i < 32
      · have hz := congrArg (fun x => Nat.testBit x i) h0
        simp only [Nat.testBit_and, Nat.zero_testBit, Bool.and_eq_false_iff] at hz
        rcases hz with hh | hh
        · exact hh
        · exfalso
          rw [hmaskrep, Nat.testBit_shiftLeft, Nat.testBit_two_pow_sub_one] at hh
          simp [hi] at hh
          omega
      · exact Nat.testBit_lt_two_pow
          (lt_of_lt_of_le h (Nat.pow_le_pow_right (by norm_num) (le_of_not_lt h32)))
    have h7 : n < 2 ^ 7 := Nat.lt_pow_two_of_testBit n hbit
    simpa using h7
  · intro h128
    apply Nat.eq_of_testBit_eq
    intro i
    simp only [Nat.testBit_and, Nat.zero_testBit, Bool.and_eq_false_iff]
    by_cases hi : 7 ≤ i
    · left
      have hle : (128 : Nat) ≤ 2 ^ i := by
        calc (128 : Nat) = 2 ^ 7 := by norm_num
          _ ≤ 2 ^ i := Nat.pow_le_pow_right (by norm_num) hi
      exact Nat.testBit_lt_two_pow (lt_of_lt_of_le h128 hle)
    · right
      rw [hmaskrep, Nat.testBit_shiftLeft]
      simp [hi]

/-- Recombining a 7-bit chunk with the shifted remainder. -/
theorem shift_chunk_combine (n off : Nat) :
    ((n &&& 127) <<< off) ||| ((n >>> 7) <<< (off + 7)) = n <<< off := by
  apply Nat.eq_of_testBit_eq
  intro j
  have h127 : (127 : Nat) = 2 ^ 7 - 1 := by norm_num
  simp only [Nat.testBit_or, Nat.testBit_shiftLeft, Nat.testBit_shiftRight,
    Nat.testBit_and, h127, Nat.testBit_two_pow_sub_one]
  by_cases h1 : off ≤ j
  · by_cases h2 : off + 7 ≤ j
    · have e1 : ¬ (j - off < 7) := by omega
      have e2 : 7 + (j - (off + 7)) = j - off := by omega
      simp [h1, h2, e1, e2]
    · have e1 : j - off < 7 := by omega
      simp [h1, h2, e1]
  · have h2 : ¬ (off + 7 ≤ j) := by omega
    simp [h1, h2]

/-- Decoding the encoding of `n < 2^(32-off)` from accumulator `acc` at bit
offset `off` (a multiple of 7, at most 28) yields `acc ||| n <<< off`. -/
theorem readVarIntLoop_writeVarInt (n : Nat) :
    ∀ acc off, 7 ∣ off → off ≤ 28 → n < 2 ^ (32 - off) →
      readVarIntLoop (writeVarInt n) acc off = .ok (acc ||| (n <<< off)) := by
  induction n using Nat.strong_induction_on with
  | _ n ih =>
    intro acc off hdvd hoff hlt
    have h32 : n < 2 ^ 32 :=
      lt_of_lt_of_le hlt (Nat.pow_le_pow_right (by norm_num) (by omega))
    rw [writeVarInt]
    by_cases hmask : n &&& 0xFFFFFF80 = 0
    · have h128 : n < 128 := (varMask_eq_zero_iff h32).mp hmask
      have hn7 : n &&& 127 = n := by
        have : n &&& 127 = n % 128 := by
          have : (127 : Nat) = 2 ^ 7 - 1 := by norm_num
          rw [this, Nat.and_pow_two_sub_one_eq_mod]
        rw [this, Nat.mod_eq_of_lt h128]
      have hbreak : n &&& 128 = 0 := by
        have h7 : n.testBit 7 = false := Nat.testBit_lt_two_pow (by simpa using h128)
        have : (128 : Nat) = 2 ^ 7 := by norm_num
        rw [this, Nat.and_two_pow, h7]
        simp
      have hoff35 : off ≠ 35 := by omega
      simp [hmask, readVarIntLoop, hoff35, hn7, hbreak]
    · have hge : 128 ≤ n := by
        by_contra hc
        exact hmask ((varMask_eq_zero_iff h32).mpr (by omega))
      have hbyte7 : ((n &&& 127) ||| 128) &&& 127 = n &&& 127 := by
        apply Nat.eq_of_testBit_eq
        intro i
        have h127 : (127 : Nat) = 2 ^ 7 - 1 := by norm_num
        have h128' : (128 : Nat) = 2 ^ 7 := by norm_num
        simp only [Nat.testBit_and, Nat.testBit_or, h127, h128',
          Nat.testBit_two_pow_sub_one, Nat.testBit_two_pow]
        by_cases hi : i < 7
        · have : ¬ (7 = i) := by omega
          simp [hi, this]
        · simp [hi]
      have hbytecont : ¬ ((n &&& 127) ||| 128) &&& 128 = 0 := by
        intro h0
        have ht : Nat.testBit ((n &&& 127) ||| 128) 7 = true := by
          rw [Nat.testBit_or]
          have h2 : Nat.testBit 128 7 = true := by decide
          simp [h2]
        have h2 : Nat.testBit 128 7 = true := by decide
        have hx := congrArg (fun x => Nat.testBit x 7) h0
        simp only [Nat.testBit_and, ht, h2, Nat.zero_testBit, Bool.and_self] at hx
        exact Bool.noConfusion hx
      have hoff35 : off ≠ 35 := by omega
      have hofflt : off < 25 := by
        by_contra hc
        have : (2 : Nat) ^ (32 - off) ≤ 2 ^ 7 := Nat.pow_le_pow_right (by norm_num) (by omega)
        omega
      have hoff21 : off ≤ 21 := by
        rcases hdvd with ⟨k, hk⟩
        omega
    -- recursive step
      have hrec := ih (n >>> 7) (by
          rw [Nat.shiftRight_eq_div_pow]
          exact Nat.div_lt_self (by omega) (by norm_num))
        (acc ||| ((n &&& 127) <<< off)) (off + 7)
        ⟨(off + 7) / 7, by rcases hdvd with ⟨k, hk⟩; omega⟩
        (by omega)
        (by
          rw [Nat.shiftRight_eq_div_pow]
          have hsplit : (2 : Nat) ^ (32 - off) = 2 ^ (32 - (off + 7)) * 2 ^ 7 := by
            rw [← pow_add]
            congr 1
            omega
          apply Nat.div_lt_of_lt_mul
          calc n < 2 ^ (32 - off) := hlt
            _ = 2 ^ (32 - (off + 7)) * 2 ^ 7 := hsplit
            _ = 2 ^ 7 * 2 ^ (32 - (off + 7)) := by ring)
      rw [if_neg hmask]
      simp only [readVarIntLoop, if_neg hoff35]
      rw [hbyte7]
      rw [if_neg hbytecont]
      rw [hrec, Nat.or_assoc, shift_chunk_combine]

/-- C1 (amended): for every non-negative integer representable in at most
32 bits, decoding the byte sequence produced by the varint encoder yields
the integer back with no error: `readVarInt (writeVarInt n) = ok n` for
`n < 2^32`. -/
theorem varint_roundtrip_32bit (n : Nat) (h : n < 2 ^ 32) :
    readVarInt (writeVarInt n) = .ok n := by
  have hx := readVarIntLoop_writeVarInt n 0 0 ⟨0, rfl⟩ (by norm_num) (by simpa using h)
  simpa [readVarInt] using hx

/-- Witness for C1's amended round-trip at `n = 300`. -/
theorem varint_roundtrip_32bit_witness :
    300 < 2 ^ 32 ∧ readVarInt (writeVarInt 300) = .ok 300 :=
  ⟨by norm_num, varint_roundtrip_32bit 300 (by norm_num)⟩

/-- Counterexample to C1 as stated: `2^32` is representable in 33 ≤ 35
bits, but the encoder's `0xFFFFFF80` mask ignores bits above 31, so
`writeVarInt` emits `[0]` and decoding returns `0`, not `2^32`. -/
theorem varint_roundtrip_35bit_counterexample :
    4294967296 < 2 ^ 35 ∧ readVarInt (writeVarInt 4294967296) = .ok 0 ∧
      (0 : Nat) ≠ 4294967296 := by
  refine ⟨by norm_num, ?_, by norm_num⟩
  have h : writeVarInt 4294967296 = [0] := by
    simp [writeVarInt]
    decide
  rw [h]
  decide

/-- C6 (amended): for every byte sequence of length at least 6 whose first
five bytes all have the continuation bit set, `readVarInt` fails with
`ErrLargeVarInt` once the bit offset reaches 35, and returns no number. -/
theorem readVarInt_six_continuation_error (b0 b1 b2 b3 b4 b5 : Nat) (rest : List Nat)
    (h0 : b0 &&& 0x80 ≠ 0) (h1 : b1 &&& 0x80 ≠ 0) (h2 : b2 &&& 0x80 ≠ 0)
    (h3 : b3 &&& 0x80 ≠ 0) (h4 : b4 &&& 0x80 ≠ 0) :
    readVarInt (b0 :: b1 :: b2 :: b3 :: b4 :: b5 :: rest) = .error .largeVarInt := by
  simp [readVarInt, readVarIntLoop, h0, h1, h2, h3, h4]

/-- Witness for C6's amended statement on a six-byte continuation run. -/
theorem readVarInt_six_continuation_error_witness :
    (128 : Nat) &&& 0x80 ≠ 0 ∧
      readVarInt [128, 128, 128, 128, 128, 128] = .error .largeVarInt :=
  ⟨by decide, readVarInt_six_continuation_error 128 128 128 128 128 128 []
    (by decide) (by decide) (by decide) (by decide) (by decide)⟩

/-- Counterexample to C6 as stated: a five-byte sequence whose first five
(i.e. all) bytes carry the continuation bit is decoded without error — the
offset-35 check only fires on a sixth byte — so `readVarInt` does return a
number for an input the claim covers. -/
theorem readVarInt_five_continuation_counterexample :
    (∀ b ∈ [128, 128, 128, 128, 128], b &&& 0x80 ≠ 0) ∧
      readVarInt [128, 128, 128, 128, 128] = .ok 0 := by
  decide

/-- C2: for a modern-status response of at least 4 bytes whose JSON-length
varint (read after the one-byte state ID) decodes to `L`,
`formatStatusResponse` fails with `ErrInvalidSizeInfo` when `L` differs
from the number of remaining bytes, and returns exactly those remaining
bytes otherwise. -/
theorem formatStatusResponse_sizeCheck (response : List Nat) (h4 : 4 ≤ response.length)
    (L : Nat) (hdec : readVarInt (takeVarIntBytes (response.drop 1)) = .ok L) :
    (L ≠ ((response.drop 1).drop (takeVarIntBytes (response.drop 1)).length).length →
      formatStatusResponse response = .error .invalidSizeInfo) ∧
    (L = ((response.drop 1).drop (takeVarIntBytes (response.drop 1)).length).length →
      formatStatusResponse response =
        .ok ((response.drop 1).drop (takeVarIntBytes (response.drop 1)).length)) := by
  have hlt : ¬ response.length < 4 := by omega
  constructor
  · intro hL
    simp only [formatStatusResponse]
    rw [if_neg hlt, hdec]
    exact if_pos hL
  · intro hL
    simp only [formatStatusResponse]
    rw [if_neg hlt, hdec]
    exact if_neg (not_not_intro hL)

/-- Witness for C2: a matching declared length succeeds with the remaining
bytes, a mismatched one fails with `ErrInvalidSizeInfo`. -/
theorem formatStatusResponse_sizeCheck_witness :
    formatStatusResponse [0, 2, 65, 66] = .ok [65, 66] ∧
      formatStatusResponse [0, 3, 65, 66] = .error .invalidSizeInfo := by
  constructor
  · have h := (formatStatusResponse_sizeCheck [0, 2, 65, 66] (by decide) 2 (by decide)).2
      (by decide)
    simpa using h
  · exact (formatStatusResponse_sizeCheck [0, 3, 65, 66] (by decide) 3 (by decide)).1
      (by decide)

/-- C3: on a structurally valid payload (present `players`/`version` values
are objects or `null`), validation fails iff one of the five mandatory
values — description, players.max, players.online, version.name,
version.protocol — is absent; a payload lacking only players.online (with
the earlier-checked values present) yields
`MissingInformation{"status", "online players"}`; and a payload with all
five present passes, whatever other fields (favicon, sample, modinfo) it
carries. -/
theorem validateStatusResponse_mandatoryFields (payload : List (String × Json))
    (_hPlayers : ∀ v, jsonLookup payload "players" = some v →
      v = Json.null ∨ ∃ inner, v = Json.obj inner)
    (_hVersion : ∀ v, jsonLookup payload "version" = some v →
      v = Json.null ∨ ∃ inner, v = Json.obj inner) :
    ((validateStatusResponse payload).isSome ↔
      ((fieldVal payload "description").isNone ∨
        (subFieldVal payload "players" "max").isNone ∨
        (subFieldVal payload "players" "online").isNone ∨
        (subFieldVal payload "version" "name").isNone ∨
        (subFieldVal payload "version" "protocol").isNone)) ∧
    ((fieldVal payload "description").isSome →
      (subFieldVal payload "players" "max").isSome →
      (subFieldVal payload "players" "online").isNone →
      validateStatusResponse payload =
        some (.missingInformation "status" "online players")) ∧
    ((fieldVal payload "description").isSome →
      (subFieldVal payload "players" "max").isSome →
      (subFieldVal payload "players" "online").isSome →
      (subFieldVal payload "version" "name").isSome →
      (subFieldVal payload "version" "protocol").isSome →
      validateStatusResponse payload = none) := by
  have conv : ∀ (x : Option Json), x.isSome = true → ¬ x.isNone = true := by
    intro x hx
    cases x <;> simp_all
  refine ⟨?_, ?_, ?_⟩
  · simp only [validateStatusResponse]
    split_ifs with h1 h2 h3 h4 h5 <;> simp_all
  · intro hd hm ho
    simp only [validateStatusResponse]
    rw [if_neg (conv _ hd), if_neg (conv _ hm), if_pos ho]
  · intro hd hm ho hn hp
    simp only [validateStatusResponse]
    rw [if_neg (conv _ hd), if_neg (conv _ hm), if_neg (conv _ ho),
      if_neg (conv _ hn), if_neg (conv _ hp)]

/-- Witness for C3: a payload with all five mandatory values (and a
favicon and player sample besides) passes validation; the same payload
without `players.online` yields `MissingInformation{"status", "online
players"}`. -/
theorem validateStatusResponse_mandatoryFields_witness :
    validateStatusResponse
      [("description", .str "A Minecraft Server"),
       ("players", .obj [("max", .num 20), ("online", .num 5), ("sample", .arr [])]),
       ("version", .obj [("name", .str "1.8"), ("protocol", .num 47)]),
       ("favicon", .str "data:image/png;base64,xyz")] = none ∧
    validateStatusResponse
      [("description", .str "A Minecraft Server"),
       ("players", .obj [("max", .num 20)]),
       ("version", .obj [("name", .str "1.8"), ("protocol", .num 47)])] =
      some (.missingInformation "status" "online players") := by
  constructor
  · exact (validateStatusResponse_mandatoryFields _
      (by intro v hv; simp [jsonLookup] at hv; exact Or.inr ⟨_, hv.symm⟩)
      (by intro v hv; simp [jsonLookup] at hv; exact Or.inr ⟨_, hv.symm⟩)).2.2
      (by decide) (by decide) (by decide) (by decide) (by decide)
  · exact (validateStatusResponse_mandatoryFields _
      (by intro v hv; simp [jsonLookup] at hv; exact Or.inr ⟨_, hv.symm⟩)
      (by intro v hv; simp [jsonLookup] at hv; exact Or.inr ⟨_, hv.symm⟩)).2.1
      (by decide) (by decide) (by decide)

/-- Splitting on a separator that does not occur yields the whole list as
the single part. -/
theorem splitOnSeq_of_not_contains (sep : List Nat) :
    ∀ l, containsSeq sep l = false → splitOnSeq sep l = [l] := by
  intro l
  induction l with
  | nil =>
    intro _
    rw [splitOnSeq]
  | cons x xs ih =>
    intro h
    have hparts : matchHead sep (x :: xs) = false ∧ containsSeq sep xs = false := by
      rw [containsSeq] at h
      exact ⟨by cases hm : matchHead sep (x :: xs) <;> simp_all,
        by cases hc : containsSeq sep xs <;> simp_all⟩
    rw [splitOnSeq, hparts.1, ih hparts.2]
    simp

/-- C4: if the fixed 11-byte player-token marker is absent from the full
query response, or the split on it yields three or more parts (the marker
occurs more than once), `packageFullQueryResponse` fails with
`ErrAbsentPlayerToken` and produces no result. -/
theorem packageFullQueryResponse_playerTokenSplit (response : List Nat)
    (h : containsSeq playerToken response = false ∨
      3 ≤ (splitOnSeq playerToken response).length) :
    packageFullQueryResponse response = .error .absentPlayerToken := by
  have hne : (splitOnSeq playerToken response).length ≠ 2 := by
    rcases h with h | h
    · rw [splitOnSeq_of_not_contains playerToken response h]
      simp
    · omega
  simp [packageFullQueryResponse, hne]

/-- Witness for C4 on a response not containing the player token. -/
theorem packageFullQueryResponse_playerTokenSplit_witness :
    containsSeq playerToken [1, 2, 3] = false ∧
      packageFullQueryResponse [1, 2, 3] = .error .absentPlayerToken :=
  ⟨by decide, packageFullQueryResponse_playerTokenSplit [1, 2, 3] (Or.inl (by decide))⟩

/-- C5: fewer than five legacy fields fail with the legacy
missing-information error; at least five are packaged in fixed order —
protocol version (integer), version name, MOTD, online count (integer),
max count (integer); and a response made of any 9-byte header plus the §8
sample body parses to the fields `1 / 1.8 / A Minecraft Server / 5 / 20`
(plus the final non-double-terminated, here empty, field) and packages to
protocol 1, version "1.8", MOTD "A Minecraft Server", online 5, max 20. -/
theorem legacyStatus_fiveFields :
    (∀ responseList : List (List Nat), responseList.length < 5 →
      packageLegacyStatusValues responseList =
        .error .statusLegacyMissingInformation) ∧
    (∀ (f0 f1 f2 f3 f4 : List Nat) (restFields : List (List Nat)) (p o m : Int),
      stringToInt f0 = .ok p → stringToInt f3 = .ok o → stringToInt f4 = .ok m →
      packageLegacyStatusValues (f0 :: f1 :: f2 :: f3 :: f4 :: restFields) =
        .ok { versionName := f1, description := f2, versionProtocol := p,
              playersOnline := o, playersMax := m }) ∧
    (∀ header : List Nat, header.length = 9 →
      parseLegacyStatusResponse (header ++ legacySampleBody) =
        .ok [strBytes "1", strBytes "1.8", strBytes "A Minecraft Server",
             strBytes "5", strBytes "20", []] ∧
      packageLegacyStatusValues
          [strBytes "1", strBytes "1.8", strBytes "A Minecraft Server",
           strBytes "5", strBytes "20", []] =
        .ok { versionName := strBytes "1.8",
              description := strBytes "A Minecraft Server",
              versionProtocol := 1, playersOnline := 5, playersMax := 20 }) := by
  refine ⟨?_, ?_, ?_⟩
  · intro responseList h
    simp [packageLegacyStatusValues, h]
  · intro f0 f1 f2 f3 f4 restFields p o m hp ho hm
    have hlen : ¬ (f0 :: f1 :: f2 :: f3 :: f4 :: restFields).length < 5 := by
      simp
    simp only [packageLegacyStatusValues]
    rw [if_neg hlen]
    simp only [List.getD_cons_zero, List.getD_cons_succ]
    rw [hp, ho, hm]
  · intro header hh
    have hbl : legacySampleBody.length = 35 := by decide
    have hlen : ¬ (header ++ legacySampleBody).length < 10 := by
      simp [List.length_append, hh, hbl]
    have hdrop : (header ++ legacySampleBody).drop 9 = legacySampleBody :=
      List.drop_left' hh
    constructor
    · simp only [parseLegacyStatusResponse]
      rw [if_neg hlen, hdrop]
      decide
    · decide

/-- Witness for C5: a 3-field list fails, five concrete fields package in
fixed order, and the §8 sample with a zero header parses as stated. -/
theorem legacyStatus_fiveFields_witness :
    packageLegacyStatusValues [strBytes "1", strBytes "1.8", strBytes "A"] =
      .error .statusLegacyMissingInformation ∧
    packageLegacyStatusValues
        [strBytes "47", strBytes "1.8.9", strBytes "motd", strBytes "3", strBytes "10"] =
      .ok { versionName := strBytes "1.8.9", description := strBytes "motd",
            versionProtocol := 47, playersOnline := 3, playersMax := 10 } ∧
    parseLegacyStatusResponse (List.replicate 9 0 ++ legacySampleBody) =
      .ok [strBytes "1", strBytes "1.8", strBytes "A Minecraft Server",
           strBytes "5", strBytes "20", []] :=
  ⟨legacyStatus_fiveFields.1 _ (by decide),
   legacyStatus_fiveFields.2.1 _ _ _ _ _ [] 47 3 10 (by decide) (by decide) (by decide),
   (legacyStatus_fiveFields.2.2 (List.replicate 9 0) (by decide)).1⟩

/-- From any loop state whose `appendValue` flag is clear after the bytes
`u`, a lone null byte (one immediately followed by a non-zero byte) is
processed exactly as if it were deleted. -/
theorem parseLegacyStatusLoop_loneNull (c : Nat) (hc : c ≠ 0) (rest : List Nat) :
    ∀ (u : List Nat) (responseList : List (List Nat)) (currentValue : List Nat)
      (av : Bool), legacyAppendFlag av u = false →
      parseLegacyStatusLoop (u ++ 0 :: c :: rest) responseList currentValue av =
        parseLegacyStatusLoop (u ++ c :: rest) responseList currentValue av := by
  intro u
  induction u with
  | nil =>
    intro rl cv av hav
    rw [legacyAppendFlag] at hav
    subst hav
    simp only [List.nil_append]
    simp [parseLegacyStatusLoop, hc]
  | cons x xs ih =>
    intro rl cv av hav
    rw [legacyAppendFlag] at hav
    simp only [List.cons_append, parseLegacyStatusLoop]
    by_cases hx : x = 0
    · subst hx
      rw [if_pos rfl, if_pos rfl]
      cases av with
      | true =>
        rw [if_pos rfl, if_pos rfl]
        exact ih (rl ++ [cv]) [] false (by simpa using hav)
      | false =>
        rw [if_neg (by simp), if_neg (by simp)]
        exact ih rl cv true (by simpa using hav)
    · rw [if_neg hx, if_neg hx]
      exact ih rl (cv ++ [x]) false (by simpa [hx] using hav)

/-- C10: in legacy-status parsing a lone null byte — one immediately
followed by a non-zero byte, and not itself completing a double-null pair
(the splitting loop's `appendValue` flag is clear when it is reached) —
neither terminates the current field nor is kept: the response parses
exactly as if the null byte were deleted, so the field's text is the
surrounding bytes concatenated.  The prefix `u` is arbitrary, so the lone
null may sit in any field, after any number of double-null-terminated
fields. -/
theorem parseLegacy_loneNull_discarded (header u rest : List Nat) (c : Nat)
    (hh : header.length = 9) (hu : legacyAppendFlag false u = false) (hc : c ≠ 0) :
    parseLegacyStatusResponse (header ++ u ++ 0 :: c :: rest) =
      parseLegacyStatusResponse (header ++ u ++ c :: rest) := by
  have hlen1 : ¬ (header ++ u ++ 0 :: c :: rest).length < 10 := by
    simp [hh]
    omega
  have hlen2 : ¬ (header ++ u ++ c :: rest).length < 10 := by
    simp [hh]
    omega
  simp only [parseLegacyStatusResponse]
  rw [if_neg hlen1, if_neg hlen2, List.append_assoc, List.append_assoc,
    List.drop_left' hh, List.drop_left' hh]
  rw [parseLegacyStatusLoop_loneNull c hc rest u [] [] false hu]

/-- Witness for C10 with the lone null inside the second field: the
response `"a\x00\x00b\x00cd\x00\x00"` (after a 9-byte header) parses like
the same response with the lone null after `b` deleted. -/
theorem parseLegacy_loneNull_discarded_witness :
    parseLegacyStatusResponse
        (List.replicate 9 1 ++ (strBytes "a" ++ [0, 0] ++ strBytes "b") ++
          0 :: 99 :: (strBytes "d" ++ [0, 0])) =
      parseLegacyStatusResponse
        (List.replicate 9 1 ++ (strBytes "a" ++ [0, 0] ++ strBytes "b") ++
          99 :: (strBytes "d" ++ [0, 0])) :=
  parseLegacy_loneNull_discarded (List.replicate 9 1)
    (strBytes "a" ++ [0, 0] ++ strBytes "b") (strBytes "d" ++ [0, 0]) 99
    (by decide) (by decide) (by decide)

/-- The beta read loop succeeds exactly by concatenating the minimal prefix
of chunks reaching the expected size. -/
theorem readBetaStatusResponseLoop_spec (s : Nat) :
    ∀ (chunks : List (List Nat)) (response result : List Nat),
      readBetaStatusResponseLoop s chunks response = .ok result →
      s ≤ result.length ∧
        ∃ k, result = response ++ (List.take k chunks).flatten ∧
          ∀ j < k, (response ++ (List.take j chunks).flatten).length < s := by
  intro chunks
  induction chunks with
  | nil =>
    intro response result h
    simp only [readBetaStatusResponseLoop] at h
    by_cases hl : response.length < s
    · rw [if_pos hl] at h
      exact absurd h (by simp)
    · rw [if_neg hl] at h
      have hres : response = result := by
        injection h
      subst hres
      refine ⟨by omega, 0, by simp, ?_⟩
      intro j hj
      omega
  | cons chunk rest ih =>
    intro response result h
    simp only [readBetaStatusResponseLoop] at h
    by_cases hl : response.length < s
    · rw [if_pos hl] at h
      obtain ⟨hs, k, hres, hmin⟩ := ih (response ++ chunk) result h
      refine ⟨hs, k + 1, ?_, ?_⟩
      · simpa [List.append_assoc] using hres
      · intro j hj
        cases j with
        | zero => simpa using hl
        | succ j' =>
          have hj' := hmin j' (by omega)
          simpa [List.append_assoc] using hj'
    · rw [if_neg hl] at h
      have hres : response = result := by
        injection h
      subst hres
      refine ⟨by omega, 0, by simp, ?_⟩
      intro j hj
      omega

/-- C9: the expected beta-status payload length is the big-endian 16-bit
integer of bytes 2–3 of the size header (byte 1 is discarded) multiplied by
2, and the read loop accumulates whole received chunks until at least that
many bytes are present: a successful read returns the concatenation of the
minimal chunk prefix whose total length reaches the expected size. -/
theorem readBetaStatusResponse_size_accumulate (a b c : Nat) (chunks : List (List Nat)) :
    readBetaStatusResponseSize [a, b, c] = (256 * b + c) * 2 ∧
    ∀ result, readBetaStatusResponse [a, b, c] chunks = .ok result →
      (256 * b + c) * 2 ≤ result.length ∧
        ∃ k, result = (List.take k chunks).flatten ∧
          ∀ j < k, ((List.take j chunks).flatten).length < (256 * b + c) * 2 := by
  have hsize : readBetaStatusResponseSize [a, b, c] = (256 * b + c) * 2 := by
    simp [readBetaStatusResponseSize]
  refine ⟨hsize, ?_⟩
  intro result h
  rw [readBetaStatusResponse, hsize] at h
  have hspec := readBetaStatusResponseLoop_spec ((256 * b + c) * 2) chunks [] result h
  simpa using hspec

/-- Witness for C9: header `[255, 0, 3]` expects 6 bytes; three chunks of
sizes 3, 2 and 1 are all consumed. -/
theorem readBetaStatusResponse_size_accumulate_witness :
    readBetaStatusResponse [255, 0, 3] [[1, 2, 3], [4, 5], [6]] = .ok [1, 2, 3, 4, 5, 6] ∧
      (256 * 0 + 3) * 2 ≤ ([1, 2, 3, 4, 5, 6] : List Nat).length := by
  constructor
  · decide
  · exact ((readBetaStatusResponse_size_accumulate 255 0 3 [[1, 2, 3], [4, 5], [6]]).2
      [1, 2, 3, 4, 5, 6] (by decide)).1

/-- Lemma: `goParseInt32` on a digit-leading string performs no sign stripping. -/
theorem goParseInt32_eq_digits (d : Nat) (ds : List Nat) (h43 : d ≠ 43) (h45 : d ≠ 45) :
    goParseInt32 (d :: ds) = goParseIntDigits false (d :: ds) := by
  unfold goParseInt32
  split
  · rename_i heq
    injection heq with h1 h2
    omega
  · rename_i heq
    injection heq with h1 h2
    omega
  · rfl

/-- Lemma: `goParseIntDigits` on a non-empty all-digit string checks the range and
returns the (possibly negated) digit value. -/
theorem goParseIntDigits_of_digits (neg : Bool) (t : List Nat) (hne : t ≠ [])
    (hdig : ∀ d ∈ t, 48 ≤ d ∧ d ≤ 57) :
    goParseIntDigits neg t =
      (let v : Int := if neg then -(digitsVal t : Int) else (digitsVal t : Int)
       if v < -(2 ^ 31) ∨ 2 ^ 31 - 1 < v then .error .numRangeError else .ok v) := by
  unfold goParseIntDigits
  rw [if_pos]
  exact ⟨hne, by
    rw [List.all_eq_true]
    intro d hd
    exact decide_eq_true (hdig d hd)⟩

/-- C8 (amended): for a challenge-token buffer of at least 7 bytes ending
in a null byte, whose header-stripped null-free bytes spell a decimal
integer `n` with `-(2^31 - 1) ≤ n ≤ 2^31 - 1`, `parseChallengeToken`
returns the 4 big-endian bytes of `n`'s two's-complement `uint32`. -/
theorem parseChallengeToken_decimal (buf : List Nat) (n : Int)
    (h7 : 7 ≤ buf.length) (hterm : buf.getLast? = some 0)
    (hrep : decimalRep ((buf.drop 5).filter (fun b => b ≠ 0)) n)
    (hlo : -(2 ^ 31 - 1) ≤ n) (hhi : n ≤ 2 ^ 31 - 1) :
    parseChallengeToken buf = .ok (putUint32BE (uint32OfInt n)) := by
  have hclean : cleanChallengeToken buf = .ok ((buf.drop 5).filter (fun b => b ≠ 0)) := by
    unfold cleanChallengeToken
    rw [if_neg (by omega)]
    have hlast : (buf.drop 5).getLast? = some 0 := by
      rw [List.getLast?_drop, if_neg (by omega), hterm]
    rw [if_neg (by rw [hlast]; simp)]
  unfold parseChallengeToken
  rw [hclean]
  show parseChallengeTokenCleaned
      ((buf.drop 5).filter (fun b => b ≠ 0)) = .ok (putUint32BE (uint32OfInt n))
  rcases hrep with ⟨hne, hdig, hnn, hval⟩ | ⟨t, heq, hne, hdig, hval⟩
  · obtain ⟨d, ds, hcons⟩ := List.exists_cons_of_ne_nil hne
    rw [hcons]
    have hd : 48 ≤ d ∧ d ≤ 57 := hdig d (by rw [hcons]; simp)
    rw [parseChallengeTokenCleaned]
    rw [if_neg (by omega)]
    rw [goParseInt32_eq_digits d ds (by omega) (by omega)]
    rw [goParseIntDigits_of_digits false (d :: ds) (by simp)
      (by rw [← hcons]; exact hdig)]
    simp only [if_false, Bool.false_eq_true]
    rw [← hcons, hval]
    rw [if_neg (by omega)]
  · rw [heq]
    obtain ⟨d, ds, hcons⟩ := List.exists_cons_of_ne_nil hne
    rw [hcons]
    have hd : 48 ≤ d ∧ d ≤ 57 := hdig d (by rw [hcons]; simp)
    rw [parseChallengeTokenCleaned]
    rw [if_pos rfl]
    rw [goParseInt32_eq_digits d ds (by omega) (by omega)]
    rw [goParseIntDigits_of_digits false (d :: ds) (by simp)
      (by rw [← hcons]; exact hdig)]
    simp only [if_false, Bool.false_eq_true]
    rw [← hcons, hval]
    rw [if_neg (by omega)]
    show Except.ok (putUint32BE (uint32OfInt (-n * -1))) =
      Except.ok (putUint32BE (uint32OfInt n))
    have hmul : -n * -1 = n := by ring
    rw [hmul]

/-- Witness for C8's amended statement: the token string `"-12345"` encodes
to the big-endian bytes of `-12345 mod 2^32`. -/
theorem parseChallengeToken_decimal_witness :
    parseChallengeToken ([9, 9, 9, 9, 9] ++ strBytes "-12345" ++ [0]) =
      .ok [255, 255, 207, 199] := by
  have h := parseChallengeToken_decimal ([9, 9, 9, 9, 9] ++ strBytes "-12345" ++ [0])
    (-12345) (by decide) (by decide)
    (Or.inr ⟨strBytes "12345", by decide, by decide, by decide, by decide⟩)
    (by norm_num) (by norm_num)
  rw [h]
  decide

/-- Counterexample to C8 as stated: `-2147483648` is in the signed 32-bit
range and its two's-complement encoding is `[128, 0, 0, 0]`, but the code
strips the sign and parses the magnitude `2147483648`, which overflows
`ParseInt(_, 10, 32)`, so `parseChallengeToken` errors instead of returning
those bytes. -/
theorem parseChallengeToken_int32min_counterexample :
    parseChallengeToken ([0, 0, 0, 0, 0] ++ strBytes "-2147483648" ++ [0]) =
      .error .numRangeError ∧
    -(2 ^ 31) ≤ (-2147483648 : Int) ∧
    putUint32BE (uint32OfInt (-2147483648)) = [128, 0, 0, 0] := by
  refine ⟨?_, by norm_num, by decide⟩
  decide

/-- A separator matches at the head of itself plus anything. -/
theorem matchHead_append_self : ∀ (sep rest : List Nat), matchHead sep (sep ++ rest) = true := by
  intro sep
  induction sep with
  | nil =>
    intro rest
    rw [matchHead]
  | cons s ss ih =>
    intro rest
    rw [List.cons_append, matchHead, ih rest]
    simp

/-- A head mismatch fails the match. -/
theorem matchHead_cons_ne (sh x : Nat) (st xs : List Nat) (hx : x ≠ sh) :
    matchHead (sh :: st) (x :: xs) = false := by
  rw [matchHead]
  have : (sh == x) = false := by
    simp [hx.symm]
  rw [this]
  simp

/-- Splitting with `SplitN(_, sep, 2)` around the first separator occurrence, when the
separator's first byte does not occur in the part before it. -/
theorem splitNSeq2_append (sh : Nat) (st a rest : List Nat) (ha : ∀ b ∈ a, b ≠ sh) :
    splitNSeq2 (sh :: st) (a ++ (sh :: st) ++ rest) = [a, rest] := by
  induction a with
  | nil =>
    simp only [List.nil_append]
    rw [List.cons_append, splitNSeq2, ← List.cons_append, matchHead_append_self]
    simp only [List.isEmpty, Bool.not_false, Bool.and_true, if_true]
    rw [List.drop_left]
  | cons x a' ih =>
    rw [List.append_assoc, List.cons_append, splitNSeq2,
      matchHead_cons_ne sh x st _ (ha x (by simp))]
    simp only [Bool.false_and, if_false]
    rw [← List.append_assoc, ih (fun b hb => ha b (by simp [hb]))]
    simp

/-- Splitting with `SplitN(_, sep, 2)` on a string free of the separator's first byte. -/
theorem splitNSeq2_free (sh : Nat) (st : List Nat) :
    ∀ l : List Nat, (∀ b ∈ l, b ≠ sh) → splitNSeq2 (sh :: st) l = [l] := by
  intro l
  induction l with
  | nil =>
    intro _
    rw [splitNSeq2]
  | cons x xs ih =>
    intro hl
    rw [splitNSeq2, matchHead_cons_ne sh x st _ (hl x (by simp))]
    simp only [Bool.false_and, if_false]
    rw [ih (fun b hb => hl b (by simp [hb]))]
    simp

/-- Splitting with `Split` around the first separator occurrence, when the separator's
first byte does not occur in the part before it. -/
theorem splitOnSeq_append (sh : Nat) (st a rest : List Nat) (ha : ∀ b ∈ a, b ≠ sh) :
    splitOnSeq (sh :: st) (a ++ (sh :: st) ++ rest) =
      a :: splitOnSeq (sh :: st) rest := by
  induction a with
  | nil =>
    simp only [List.nil_append]
    rw [List.cons_append, splitOnSeq, ← List.cons_append, matchHead_append_self]
    simp only [List.isEmpty, Bool.not_false, Bool.and_true, if_true]
    rw [List.drop_left]
  | cons x a' ih =>
    rw [List.append_assoc, List.cons_append, splitOnSeq,
      matchHead_cons_ne sh x st _ (ha x (by simp))]
    simp only [Bool.false_and, if_false]
    rw [← List.append_assoc, ih (fun b hb => ha b (by simp [hb]))]
    simp

/-- Splitting with `Split` on a string free of the separator's first byte. -/
theorem splitOnSeq_free (sh : Nat) (st : List Nat) (l : List Nat)
    (hl : ∀ b ∈ l, b ≠ sh) : splitOnSeq (sh :: st) l = [l] := by
  apply splitOnSeq_of_not_contains
  induction l with
  | nil =>
    rw [containsSeq, matchHead]
  | cons x xs ih =>
    rw [containsSeq, matchHead_cons_ne sh x st _ (hl x (by simp)),
      ih (fun b hb => hl b (by simp [hb]))]
    rfl

/-- Splitting the `"; "`-join of strings free of `';'` recovers them. -/
theorem splitOnSeq_joinWith (st : List Nat) :
    ∀ rendered : List (List Nat), rendered ≠ [] →
      (∀ e ∈ rendered, ∀ b ∈ e, b ≠ 59) →
      splitOnSeq (59 :: st) (joinWith (59 :: st) rendered) = rendered := by
  intro rendered
  induction rendered with
  | nil =>
    intro h _
    exact absurd rfl h
  | cons e rest ih =>
    intro _ hfree
    cases rest with
    | nil =>
      rw [joinWith]
      exact splitOnSeq_free 59 st e (hfree e (by simp))
    | cons e2 rest' =>
      rw [joinWith,
        splitOnSeq_append 59 st e _ (hfree e (by simp)),
        ih (by simp) (fun e' he' b hb => hfree e' (by simp [he']) b hb)]

/-- The per-entry split of `packagePluginSection` recovers a rendered
(name, version) pair whose parts contain no space. -/
theorem pluginEntrySplit (nm ver : List Nat)
    (hnm : ∀ b ∈ nm, b ≠ 32) (hver : ∀ b ∈ ver, b ≠ 32) :
    (let pluginSplit := splitOnSeq (strBytes " ") (renderPluginEntry (nm, ver))
     if pluginSplit.length = 1 then (pluginSplit.headD [], ([] : List Nat))
     else (pluginSplit.headD [], pluginSplit.getD 1 [])) = (nm, ver) := by
  have hsp : strBytes " " = [32] := by decide
  by_cases hv : ver = []
  · subst hv
    have hre : renderPluginEntry (nm, []) = nm := by
      simp [renderPluginEntry]
    simp only [hre, hsp]
    rw [splitOnSeq_free 32 [] nm hnm]
    simp
  · have hre : renderPluginEntry (nm, ver) = nm ++ [32] ++ ver := by
      simp [renderPluginEntry, hv, hsp]
    simp only [hre, hsp]
    rw [splitOnSeq_append 32 [] nm ver hnm, splitOnSeq_free 32 [] ver hver]
    simp

/-- C7 (amended): a non-empty plugins string built from a colon-free mod
name and entries with space- and semicolon-free parts (names non-empty) is
split on the first `": "` into mod type and plugin list and on `"; "` into
entries, and each entry is split on spaces with the first token the plugin
name and the second token (or the explicit empty string) the version —
tokens after the second are discarded. -/
theorem packagePluginSection_wellFormed (modName : List Nat)
    (entries : List (List Nat × List Nat)) (fq : FullQueryResponse)
    (hmod : ∀ b ∈ modName, b ≠ 58)
    (hent : ∀ e ∈ entries, e.1 ≠ [] ∧ (∀ b ∈ e.1, b ≠ 32 ∧ b ≠ 59) ∧
      (∀ b ∈ e.2, b ≠ 32 ∧ b ≠ 59)) :
    packagePluginSection (renderPluginSection modName entries) fq =
      { fq with modType := modName, modList := entries } := by
  have hsep2 : strBytes ": " = [58, 32] := by decide
  have hsep59 : strBytes "; " = [59, 32] := by decide
  have hlen0 : ¬ (renderPluginSection modName entries).length = 0 := by
    simp [renderPluginSection, hsep2]
  have hsplit2 : splitNSeq2 (strBytes ": ") (renderPluginSection modName entries) =
      [modName, joinWith (strBytes "; ") (entries.map renderPluginEntry)] := by
    rw [hsep2, renderPluginSection, hsep2]
    exact splitNSeq2_append 58 [32] modName _ hmod
  rw [packagePluginSection]
  rw [if_neg hlen0, hsplit2]
  simp only [List.headD_cons, List.getD_cons_succ, List.getD_cons_zero,
    List.length_cons, List.length_nil]
  rw [if_neg (by norm_num)]
  cases hcase : entries with
  | nil =>
    simp [joinWith]
  | cons e0 rest =>
    have hjoin_ne : joinWith (strBytes "; ") ((e0 :: rest).map renderPluginEntry) ≠ [] := by
      have he0 := hent e0 (by rw [hcase]; simp)
      have hr : renderPluginEntry e0 ≠ [] := by
        rw [renderPluginEntry]
        by_cases hv : e0.2 = []
        · rw [if_pos hv]
          exact he0.1
        · rw [if_neg hv]
          intro hx
          have := List.append_eq_nil.mp hx
          exact absurd (List.append_eq_nil.mp this.1).1 he0.1
      cases rest with
      | nil => simpa [joinWith] using hr
      | cons e1 rest' =>
        simp only [List.map_cons, joinWith]
        intro hx
        have := List.append_eq_nil.mp hx
        exact absurd (List.append_eq_nil.mp this.1).1 hr
    rw [← hcase] at hjoin_ne ⊢
    rw [if_pos hjoin_ne]
    have hfree : ∀ e ∈ entries.map renderPluginEntry, ∀ b ∈ e, b ≠ 59 := by
      intro e he b hb
      obtain ⟨p, hp, rfl⟩ := List.mem_map.mp he
      have hpent := hent p hp
      rw [renderPluginEntry] at hb
      by_cases hv : p.2 = []
      · rw [if_pos hv] at hb
        exact (hpent.2.1 b hb).2
      · rw [if_neg hv] at hb
        simp only [List.mem_append] at hb
        rcases hb with (hb | hb) | hb
        · exact (hpent.2.1 b hb).2
        · have : b = 32 := by
            have hsp : strBytes " " = [32] := by decide
            rw [hsp] at hb
            simpa using hb
          omega
        · exact (hpent.2.2 b hb).2
    have hmapne : entries.map renderPluginEntry ≠ [] := by
      rw [hcase]
      simp
    rw [hsep59, splitOnSeq_joinWith [32] (entries.map renderPluginEntry) hmapne hfree]
    rw [List.map_map]
    have hcongr : entries.map
        ((fun plugin =>
          let pluginSplit := splitOnSeq (strBytes " ") plugin
          if pluginSplit.length = 1 then (pluginSplit.headD [], ([] : List Nat))
          else (pluginSplit.headD [], pluginSplit.getD 1 [])) ∘ renderPluginEntry) =
        entries.map id := by
      apply List.map_congr_left
      intro p hp
      have hpent := hent p hp
      have := pluginEntrySplit p.1 p.2 (fun b hb => (hpent.2.1 b hb).1)
        (fun b hb => (hpent.2.2 b hb).1)
      simpa using this
    rw [hcongr, List.map_id]

/-- Witness for C7's amended statement: the spec's own example input
`"CraftBukkit: WorldEdit 5.0; NoCheatPlus"` parses to mod type
`"CraftBukkit"` and mod list `[(WorldEdit, 5.0), (NoCheatPlus, "")]`. -/
theorem packagePluginSection_wellFormed_witness :
    packagePluginSection (strBytes "CraftBukkit: WorldEdit 5.0; NoCheatPlus") {} =
      { modType := strBytes "CraftBukkit",
        modList := [(strBytes "WorldEdit", strBytes "5.0"),
                    (strBytes "NoCheatPlus", [])] } := by
  have hr : renderPluginSection (strBytes "CraftBukkit")
      [(strBytes "WorldEdit", strBytes "5.0"), (strBytes "NoCheatPlus", [])] =
      strBytes "CraftBukkit: WorldEdit 5.0; NoCheatPlus" := by decide
  rw [← hr]
  exact packagePluginSection_wellFormed _ _ {} (by decide) (by decide)

/-- Counterexample to C7 as stated: in the entry `"B 1 2"` the version is
not everything after the first space — the spec-described split would give
`"1 2"`, but the code keeps only the second space-separated token `"1"`. -/
theorem packagePluginSection_firstSpace_counterexample :
    (packagePluginSection (strBytes "A: B 1 2") {}).modList =
      [(strBytes "B", strBytes "1")] ∧
    specEntryVersion (strBytes "B 1 2") = strBytes "1 2" ∧
    strBytes "1" ≠ strBytes "1 2" := by
  refine ⟨?_, by decide, by decide⟩
  have h1 : splitNSeq2 (strBytes ": ") (strBytes "A: B 1 2") =
      [strBytes "A", strBytes "B 1 2"] := by
    decide
  have h2 : splitOnSeq (strBytes "; ") (strBytes "B 1 2") = [strBytes "B 1 2"] := by
    have hs : strBytes "; " = 59 :: [32] := by decide
    rw [hs]
    exact splitOnSeq_free 59 [32] _ (by decide)
  have h3 : splitOnSeq (strBytes " ") (strBytes "B 1 2") =
      [strBytes "B", strBytes "1", strBytes "2"] := by
    have hs : strBytes " " = 32 :: [] := by decide
    have hb : strBytes "B 1 2" = strBytes "B" ++ (32 :: []) ++ strBytes "1 2" := by decide
    rw [hs, hb, splitOnSeq_append 32 [] _ _ (by decide)]
    have hb2 : strBytes "1 2" = strBytes "1" ++ (32 :: []) ++ strBytes "2" := by decide
    rw [hb2, splitOnSeq_append 32 [] _ _ (by decide)]
    rw [splitOnSeq_free 32 [] (strBytes "2") (by decide)]
  rw [packagePluginSection]
  rw [if_neg (by decide), h1]
  simp only [List.headD_cons, List.getD_cons_succ, List.getD_cons_zero,
    List.length_cons, List.length_nil]
  rw [if_neg (by norm_num), if_pos (by decide), h2]
  simp only [List.map_cons, List.map_nil, h3]
  simp [h3]
